import Mathlib

/-!
Verification of the sold-price aggregation pipeline of `src/app.py`
(Pokémon Sold Price Finder).

The embedded code is the pure data-reshaping core of the program:

  - the per-record normalization loop of `ebay_find_completed_items`
    (src/app.py lines 312-352), which turns raw eBay Finding-API item
    records into normalized `{title, end_time, price, shipping,
    total_price, currency, url}` dicts;
  - the dominant-currency filter of `ebay_find_completed_items`
    (lines 354-357), which keeps only the items whose currency is
    `pd.Series([...]).mode().iloc[0]`;
  - `summarize_prices` (lines 360-372).

HTTP fetching, caching and the Streamlit UI are collaborators outside
the embedded core: the normalization stage is modelled as a function of
the already-fetched list of raw item records.

Python floats are modelled as rationals (`ℚ`); `float(...)` string
parsing is modelled for plain decimal literals (optional sign, digits,
optional fractional part, surrounding whitespace). Exponent notation,
underscores in literals and infinities are outside the model; no claim
below depends on them.
-/

/-- A raw JSON-ish scalar value as it appears in an eBay Finding-API
response field: a number, a string, or null. -/
inductive RawVal where
  | num (q : ℚ)
  | str (s : String)
  | null
deriving DecidableEq, Repr

/-- Python truthiness of a raw scalar: `0`, `""` and `None` are falsy. -/
def RawVal.truthy : RawVal → Bool
  | .num q => decide (q ≠ 0)
  | .str s => decide (s ≠ "")
  | .null => false

/-- ASCII whitespace, as stripped by Python `float()`. -/
def isSpaceChar (c : Char) : Bool :=
  c == ' ' || c == '\t' || c == '\n' || c == '\r'

/-- Strip leading and trailing whitespace from a character list. -/
def trimChars (cs : List Char) : List Char :=
  ((cs.dropWhile isSpaceChar).reverse.dropWhile isSpaceChar).reverse

def isDigitChar (c : Char) : Bool := '0' ≤ c && c ≤ '9'

/-- Numeric value of a list of decimal digit characters. -/
def digitsToNat (cs : List Char) : Nat :=
  cs.foldl (fun a c => a * 10 + (c.toNat - 48)) 0

/-- Parse an unsigned decimal literal (`"12"`, `"12."`, `".5"`,
`"12.5"`); `none` on anything else. -/
def parseUnsignedDecimal (cs : List Char) : Option ℚ :=
  let ip := cs.takeWhile isDigitChar
  let rest := cs.dropWhile isDigitChar
  match rest with
  | [] => if ip.isEmpty then none else some (digitsToNat ip : ℚ)
  | '.' :: fp =>
    if fp.all isDigitChar && !(ip.isEmpty && fp.isEmpty) then
      some ((digitsToNat ip : ℚ) + (digitsToNat fp : ℚ) / ((10 : ℚ) ^ fp.length))
    else none
  | _ => none

/-- Model of Python `float(s)` on a string: strips whitespace, accepts
an optional sign and a plain decimal literal; `none` models the
`ValueError` branch. -/
def pyFloatOfString (s : String) : Option ℚ :=
  match trimChars s.data with
  | '-' :: cs => (parseUnsignedDecimal cs).map (fun q => -q)
  | '+' :: cs => parseUnsignedDecimal cs
  | cs => parseUnsignedDecimal cs

/-- Model of Python `float(v)` on a raw scalar; `none` models the
exception branch (`float(None)` raises `TypeError`). -/
def coerceFloat : RawVal → Option ℚ
  | .num q => some q
  | .str s => pyFloatOfString s
  | .null => none

/-- Model of `try: float(r or 0.0) except Exception: 0.0`
(src/app.py lines 322-325 and 335-338). -/
def floatOrZero (r : RawVal) : ℚ :=
  (coerceFloat (if r.truthy then r else .num 0)).getD 0

/-- Model of the Python idiom `(x or [d])[0]` used throughout the
normalization loop: first element of the list when it is present and
non-empty, the default otherwise. -/
def firstOr {α : Type} (l : Option (List α)) (d : α) : α :=
  match l with
  | some (a :: _) => a
  | _ => d

/-- Model of `obj.get("__value__", obj.get("#text", 0.0))`
(src/app.py lines 320 and 334). -/
def rawPriceVal (v t : Option RawVal) : RawVal :=
  v.getD (t.getD (.num 0))

/-- The fields of a `currentPrice` object read by the loop:
`__value__`, `#text`, `@currencyId`, `currencyId`. -/
structure PriceObj where
  value_field : Option RawVal
  text_field : Option RawVal
  atCurrencyId : Option String
  currencyId : Option String
deriving DecidableEq, Repr

/-- The fields of a `shippingServiceCost` object read by the loop:
`__value__` and `#text`. -/
structure ShipCostObj where
  value_field : Option RawVal
  text_field : Option RawVal
deriving DecidableEq, Repr

/-- The `shippingInfo` entry: `shippingServiceCost` is `none` when the
key is absent or its value is not a list (the code guards with
`isinstance(ship_cost_obj, list)`). -/
structure ShippingInfo where
  shippingServiceCost : Option (List ShipCostObj)
deriving DecidableEq, Repr

/-- The `listingInfo` entry: only `endTime` is read. -/
structure ListingInfo where
  endTime : Option (List String)
deriving DecidableEq, Repr

/-- The `sellingStatus` entry: only `currentPrice` is read. -/
structure SellingStatus where
  currentPrice : Option (List PriceObj)
deriving DecidableEq, Repr

/-- A raw eBay Finding-API item record, restricted to the keys the
normalization loop reads. The Finding API wraps every field in a
singleton list, hence the `Option (List _)` types. -/
structure RawItem where
  title : Option (List String)
  viewItemURL : Option (List String)
  listingInfo : Option (List ListingInfo)
  sellingStatus : Option (List SellingStatus)
  shippingInfo : Option (List ShippingInfo)
deriving DecidableEq, Repr

/-- A normalized item dict appended by the loop (src/app.py 342-352). -/
structure NormItem where
  title : String
  end_time : String
  price : ℚ
  shipping : ℚ
  total_price : ℚ
  currency : String
  url : String
deriving DecidableEq, Repr

/-- `price_obj = ((it.get("sellingStatus") or [{}])[0].get("currentPrice") or [{}])[0]`
(src/app.py lines 318-319). -/
def priceObjOf (it : RawItem) : PriceObj :=
  firstOr (firstOr it.sellingStatus (⟨none⟩ : SellingStatus)).currentPrice
    (⟨none, none, none, none⟩ : PriceObj)

/-- The price computed for a record (src/app.py lines 320-325). -/
def priceOf (it : RawItem) : ℚ :=
  floatOrZero (rawPriceVal (priceObjOf it).value_field (priceObjOf it).text_field)

/-- `currency = price_obj.get("@currencyId", price_obj.get("currencyId", "GBP"))`
(src/app.py line 327). -/
def currencyOf (it : RawItem) : String :=
  (priceObjOf it).atCurrencyId.getD ((priceObjOf it).currencyId.getD "GBP")

/-- The shipping cost computed for a record (src/app.py lines 329-338):
0.0 unless `shippingServiceCost` is a non-empty list whose head parses. -/
def shipCostOf (it : RawItem) : ℚ :=
  match (firstOr it.shippingInfo (⟨none⟩ : ShippingInfo)).shippingServiceCost with
  | some (o :: _) => floatOrZero (rawPriceVal o.value_field o.text_field)
  | _ => 0

/-- One iteration of the normalization loop (src/app.py lines 313-352):
every record yields exactly one normalized item. -/
def normalizeItem (it : RawItem) (include_shipping : Bool) : NormItem :=
  ⟨firstOr it.title "",
   firstOr (firstOr it.listingInfo (⟨none⟩ : ListingInfo)).endTime "",
   priceOf it,
   shipCostOf it,
   if include_shipping then priceOf it + shipCostOf it else priceOf it,
   currencyOf it,
   firstOr it.viewItemURL ""⟩

/-- Code-point lexicographic order on character lists: the string
comparison Python and pandas use. -/
def charListLtb : List Char → List Char → Bool
  | _, [] => false
  | [], _ :: _ => true
  | a :: as, b :: bs =>
    if a < b then true else if b < a then false else charListLtb as bs

/-- Python string `<`: code-point lexicographic comparison. -/
def strLtb (a b : String) : Bool := charListLtb a.data b.data

/-- Number of occurrences of the currency `c` in `cs`. -/
def cnt (cs : List String) (c : String) : Nat :=
  (cs.filter (fun x => decide (x = c))).length

/-- One comparison step of the mode computation: prefer the strictly
more frequent currency, and on equal counts the lexicographically
smaller one. -/
def pickBetter (cs : List String) (best c : String) : String :=
  if cnt cs best < cnt cs c then c
  else if cnt cs c == cnt cs best && strLtb c best then c
  else best

/-- Model of `pd.Series(cs).mode().iloc[0]` (src/app.py line 355):
pandas returns the most frequent values in ascending sorted order, so
`.iloc[0]` is the lexicographically smallest among the most frequent.
Only applied to non-empty lists by the code. -/
def modeFirst (cs : List String) : String :=
  match cs with
  | [] => ""
  | c :: rest => rest.foldl (pickBetter cs) c

/-- The currencies of the normalized items of `items`. -/
def currenciesOf (items : List RawItem) (include_shipping : Bool) : List String :=
  (items.map (fun it => normalizeItem it include_shipping)).map (fun x => x.currency)

/-- The normalization-and-filter stage of `ebay_find_completed_items`
(src/app.py lines 312-358), with the HTTP fetch abstracted as the input
record list: normalize every record, then keep only the items in the
dominant (mode) currency. An empty normalized list is returned as is. -/
def ebay_find_completed_items (items : List RawItem) (include_shipping : Bool) :
    List NormItem :=
  if (items.map (fun it => normalizeItem it include_shipping)).isEmpty then
    items.map (fun it => normalizeItem it include_shipping)
  else
    (items.map (fun it => normalizeItem it include_shipping)).filter
      (fun x => decide (x.currency = modeFirst (currenciesOf items include_shipping)))

/-- Sum of a list of rationals. -/
def listSum (l : List ℚ) : ℚ := l.foldl (· + ·) 0

/-- Stable insertion into a list sorted descending by `end_time`
(models `df.sort_values("end_time", ascending=False)`). -/
def insertDescBy (x : NormItem) : List NormItem → List NormItem
  | [] => [x]
  | y :: ys => if strLtb x.end_time y.end_time then y :: insertDescBy x ys else x :: y :: ys

/-- Sort a list of items descending by `end_time`. -/
def sort_values_desc (l : List NormItem) : List NormItem :=
  l.foldr insertDescBy []

/-- The summary dict built by `summarize_prices` (src/app.py 365-372):
`{currency, count, high, low, avg, df}`. -/
structure Summary where
  currency : String
  count : Nat
  high : ℚ
  low : ℚ
  avg : ℚ
  df : List NormItem
deriving DecidableEq, Repr

/-- `summarize_prices` (src/app.py lines 360-372): `None` on an empty
item list, otherwise the currency of the first row, the row count, and
max, min and mean of the `total_price` column, plus the rows sorted
descending by `end_time`. -/
def summarize_prices (items : List NormItem) : Option Summary :=
  match items with
  | [] => none
  | x :: xs =>
    some ⟨x.currency,
          (x :: xs).length,
          (xs.map (fun y => y.total_price)).foldl max x.total_price,
          (xs.map (fun y => y.total_price)).foldl min x.total_price,
          listSum ((x :: xs).map (fun y => y.total_price)) / ((x :: xs).length : ℚ),
          sort_values_desc (x :: xs)⟩

/-- The price of the record is missing (neither `__value__` nor `#text`
present) or non-numeric (`float` raises on it). -/
def badPrice (it : RawItem) : Bool :=
  (coerceFloat (rawPriceVal (priceObjOf it).value_field (priceObjOf it).text_field)).isNone
  || ((priceObjOf it).value_field.isNone && (priceObjOf it).text_field.isNone)

/-- The shipping cost of the record is missing (no usable
`shippingServiceCost` list) or unparsable (`float` raises on it). -/
def badShipping (it : RawItem) : Bool :=
  match (firstOr it.shippingInfo (⟨none⟩ : ShippingInfo)).shippingServiceCost with
  | some (o :: _) => (coerceFloat (rawPriceVal o.value_field o.text_field)).isNone
  | _ => true

/-- Insertion into an ascending-sorted list of rationals. -/
def insertRat (q : ℚ) : List ℚ → List ℚ
  | [] => [q]
  | x :: xs => if q ≤ x then q :: x :: xs else x :: insertRat q xs

/-- Ascending insertion sort of a list of rationals. -/
def ratSort (l : List ℚ) : List ℚ := l.foldr insertRat []

/-- Modelled from the spec: the median the Summary is claimed to
contain. The spec: mean and median use standard definitions; the median
of an even-count series is the average of the two middle values after
sorting. No median is computed anywhere in src/app.py. -/
def specMedian (l : List ℚ) : ℚ :=
  if l.length % 2 == 1 then (ratSort l).getD (l.length / 2) 0
  else ((ratSort l).getD (l.length / 2 - 1) 0 + (ratSort l).getD (l.length / 2) 0) / 2

/-- A fitted trend line, `{slope, intercept}`. -/
structure TrendLine where
  slope : ℚ
  intercept : ℚ
deriving DecidableEq, Repr

/-- Modelled from the spec: the Trend Estimator of spec section 4.4 has
no implementation in src/app.py (only other variants of the dashboard
carry one). Per the spec it fits `slope = sum (x*y) / sum (x*x)` over
mean-centered time values with `intercept = mean y`, and with fewer
than two points no trend line is produced. -/
def trend_estimate (pts : List (ℚ × ℚ)) : Option TrendLine :=
  match pts with
  | [] => none
  | [_] => none
  | ps =>
    let n : ℚ := (ps.length : ℚ)
    let xbar := listSum (ps.map (fun p => p.1)) / n
    let sxy := listSum (ps.map (fun p => (p.1 - xbar) * p.2))
    let sxx := listSum (ps.map (fun p => (p.1 - xbar) * (p.1 - xbar)))
    some ⟨sxy / sxx, listSum (ps.map (fun p => p.2)) / n⟩

/-- A record whose price is the non-numeric string `"N/A"`. -/
def naPriceItem : RawItem :=
  ⟨none, none, none,
   some [⟨some [⟨some (.str "N/A"), none, some "GBP", none⟩]⟩], none⟩

/-- A record priced 5 USD. -/
def usdTieItem : RawItem :=
  ⟨none, none, none,
   some [⟨some [⟨some (.num 5), none, some "USD", none⟩]⟩], none⟩

/-- A record priced 7 GBP. -/
def gbpTieItem : RawItem :=
  ⟨none, none, none,
   some [⟨some [⟨some (.num 7), none, some "GBP", none⟩]⟩], none⟩

/-- The spec scenario records: 10 GBP, 12 GBP, 999 USD. -/
def gbp10Item : RawItem :=
  ⟨none, none, none,
   some [⟨some [⟨some (.num 10), none, some "GBP", none⟩]⟩], none⟩

def gbp12Item : RawItem :=
  ⟨none, none, none,
   some [⟨some [⟨some (.num 12), none, some "GBP", none⟩]⟩], none⟩

def usd999Item : RawItem :=
  ⟨none, none, none,
   some [⟨some [⟨some (.num 999), none, some "USD", none⟩]⟩], none⟩

/-- A record priced 4 with no currency fields at all. -/
def noCurrencyItem : RawItem :=
  ⟨none, none, none,
   some [⟨some [⟨some (.num 4), none, none, none⟩]⟩], none⟩

/-- A record priced 3 GBP with no shipping information. -/
def noShippingItem : RawItem :=
  ⟨none, none, none,
   some [⟨some [⟨some (.num 3), none, some "GBP", none⟩]⟩], none⟩

/-- A four-row single-currency item list whose total prices are
1, 2, 3, 10: its even-count median 5/2 differs from its count, min,
max and mean. -/
def fourRowItems : List NormItem :=
  [⟨"", "", 1, 0, 1, "GBP", ""⟩, ⟨"", "", 2, 0, 2, "GBP", ""⟩,
   ⟨"", "", 3, 0, 3, "GBP", ""⟩, ⟨"", "", 10, 0, 10, "GBP", ""⟩]

/-! Helper lemmas on the code-point order. -/

theorem char_eq_of_not_lt {x y : Char} (h1 : ¬ x < y) (h2 : ¬ y < x) : x = y :=
  le_antisymm (not_lt.mp h2) (not_lt.mp h1)

theorem charListLtb_irrefl : ∀ l : List Char, charListLtb l l = false
  | [] => rfl
  | a :: as => by
    unfold charListLtb
    simp [lt_irrefl, charListLtb_irrefl as]

theorem charListLtb_nil_right : ∀ l : List Char, charListLtb l [] = false
  | [] => rfl
  | _ :: _ => rfl

theorem charListLtb_trans :
    ∀ a b c : List Char, charListLtb a b = true → charListLtb b c = true →
      charListLtb a c = true
  | _, b, [], _, h2 => by rw [charListLtb_nil_right b] at h2; cases h2
  | a, [], _ :: _, h1, _ => by rw [charListLtb_nil_right a] at h1; cases h1
  | [], _ :: _, _ :: _, _, _ => rfl
  | a :: as, b :: bs, c :: cs, h1, h2 => by
    unfold charListLtb at h1 h2 ⊢
    by_cases hab : a < b
    · by_cases hbc : b < c
      · rw [if_pos (lt_trans hab hbc)]
      · by_cases hcb : c < b
        · rw [if_neg hbc, if_pos hcb] at h2; cases h2
        · have hbceq : b = c := char_eq_of_not_lt hbc hcb
          subst hbceq
          rw [if_pos hab]
    · by_cases hba : b < a
      · rw [if_neg hab, if_pos hba] at h1; cases h1
      · have habeq : a = b := char_eq_of_not_lt hab hba
        subst habeq
        rw [if_neg (lt_irrefl a)] at h1
        rw [if_neg (lt_irrefl a)] at h1
        by_cases hac : a < c
        · rw [if_pos hac]
        · by_cases hca : c < a
          · rw [if_neg hac, if_pos hca] at h2; cases h2
          · have haceq : a = c := char_eq_of_not_lt hac hca
            subst haceq
            rw [if_neg (lt_irrefl a)] at h2
            rw [if_neg (lt_irrefl a)] at h2
            rw [if_neg (lt_irrefl a), if_neg (lt_irrefl a)]
            exact charListLtb_trans as bs cs h1 h2

theorem charListLtb_trichotomy :
    ∀ a b : List Char, charListLtb a b = true ∨ charListLtb b a = true ∨ a = b
  | [], [] => .inr (.inr rfl)
  | [], _ :: _ => .inl rfl
  | _ :: _, [] => .inr (.inl rfl)
  | a :: as, b :: bs => by
    rcases lt_trichotomy a b with hab | hab | hab
    · exact .inl (by unfold charListLtb; rw [if_pos hab])
    · subst hab
      rcases charListLtb_trichotomy as bs with h | h | h
      · refine .inl ?_
        unfold charListLtb
        rw [if_neg (lt_irrefl a), if_neg (lt_irrefl a)]
        exact h
      · refine .inr (.inl ?_)
        unfold charListLtb
        rw [if_neg (lt_irrefl a), if_neg (lt_irrefl a)]
        exact h
      · exact .inr (.inr (by rw [h]))
    · exact .inr (.inl (by unfold charListLtb; rw [if_pos hab]))

theorem strLtb_irrefl (a : String) : strLtb a a = false :=
  charListLtb_irrefl a.data

theorem strLtb_trans {a b c : String} (h1 : strLtb a b = true)
    (h2 : strLtb b c = true) : strLtb a c = true :=
  charListLtb_trans a.data b.data c.data h1 h2

theorem strLtb_asymm {a b : String} (h : strLtb a b = true) : strLtb b a = false := by
  by_contra hc
  have hba : strLtb b a = true := by
    cases hx : strLtb b a
    · exact absurd hx hc
    · rfl
  have : strLtb a a = true := strLtb_trans h hba
  rw [strLtb_irrefl a] at this
  cases this

theorem strLtb_total {a b : String} (h : strLtb a b = false) :
    strLtb b a = true ∨ a = b := by
  rcases charListLtb_trichotomy a.data b.data with h1 | h1 | h1
  · rw [strLtb] at h; rw [h1] at h; cases h
  · exact .inl h1
  · refine .inr ?_
    cases a
    cases b
    exact congrArg String.mk h1

/-! Comparison of candidates for the dominant currency: `asGood cs a b`
says `a` is selected over (or equal to) `b` by the mode computation,
i.e. `a` is strictly more frequent in `cs`, or equally frequent and not
lexicographically after `b`. -/

def asGood (cs : List String) (a b : String) : Prop :=
  cnt cs b < cnt cs a ∨ (cnt cs a = cnt cs b ∧ strLtb b a = false)

theorem asGood_refl (cs : List String) (a : String) : asGood cs a a :=
  .inr ⟨rfl, strLtb_irrefl a⟩

theorem asGood_trans {cs : List String} {a b c : String}
    (h1 : asGood cs a b) (h2 : asGood cs b c) : asGood cs a c := by
  rcases h1 with h1 | ⟨h1e, h1s⟩
  · rcases h2 with h2 | ⟨h2e, h2s⟩
    · exact .inl (lt_trans h2 h1)
    · exact .inl (h2e ▸ h1)
  · rcases h2 with h2 | ⟨h2e, h2s⟩
    · exact .inl (h1e ▸ h2)
    · refine .inr ⟨h1e.trans h2e, ?_⟩
      cases hx : strLtb c a
      · rfl
      · rcases strLtb_total h1s with hba | hba
        · rcases strLtb_total h2s with hcb | hcb
          · have := strLtb_trans (strLtb_trans hx hba) hcb
            rw [strLtb_irrefl c] at this
            cases this
          · subst hcb
            have := strLtb_trans hx hba
            rw [strLtb_irrefl c] at this
            cases this
        · subst hba
          rcases strLtb_total h2s with hcb | hcb
          · have := strLtb_trans hx hcb
            rw [strLtb_irrefl c] at this
            cases this
          · subst hcb
            rw [strLtb_irrefl] at hx
            cases hx

theorem pickBetter_eq_or (cs : List String) (b c : String) :
    pickBetter cs b c = b ∨ pickBetter cs b c = c := by
  unfold pickBetter
  split_ifs
  · exact .inr rfl
  · exact .inr rfl
  · exact .inl rfl

theorem asGood_pickBetter_left (cs : List String) (b c : String) :
    asGood cs (pickBetter cs b c) b := by
  unfold pickBetter
  split_ifs with h1 h2
  · exact .inl h1
  · rw [Bool.and_eq_true, beq_iff_eq] at h2
    exact .inr ⟨h2.1, strLtb_asymm h2.2⟩
  · exact asGood_refl cs b

theorem asGood_pickBetter_right (cs : List String) (b c : String) :
    asGood cs (pickBetter cs b c) c := by
  unfold pickBetter
  split_ifs with h1 h2
  · exact asGood_refl cs c
  · exact asGood_refl cs c
  · rcases Nat.lt_or_ge (cnt cs c) (cnt cs b) with hlt | hge
    · exact .inl hlt
    · have heq : cnt cs b = cnt cs c := le_antisymm hge (not_lt.mp h1)
      refine .inr ⟨heq, ?_⟩
      cases hx : strLtb c b
      · rfl
      · exact absurd (by rw [Bool.and_eq_true, beq_iff_eq]; exact ⟨heq.symm, hx⟩) h2

theorem foldl_pickBetter_asGood_init (cs : List String) :
    ∀ (rest : List String) (b : String), asGood cs (rest.foldl (pickBetter cs) b) b
  | [], b => asGood_refl cs b
  | c :: rest, b => by
    rw [List.foldl_cons]
    exact asGood_trans (foldl_pickBetter_asGood_init cs rest (pickBetter cs b c))
      (asGood_pickBetter_left cs b c)

theorem foldl_pickBetter_asGood_mem (cs : List String) :
    ∀ (rest : List String) (b c : String), c ∈ rest →
      asGood cs (rest.foldl (pickBetter cs) b) c
  | [], _, _, h => absurd h (List.not_mem_nil _)
  | d :: rest, b, c, h => by
    rw [List.foldl_cons]
    rcases List.mem_cons.mp h with rfl | h
    · exact asGood_trans (foldl_pickBetter_asGood_init cs rest (pickBetter cs b c))
        (asGood_pickBetter_right cs b c)
    · exact foldl_pickBetter_asGood_mem cs rest (pickBetter cs b d) c h

theorem foldl_pickBetter_mem (cs : List String) :
    ∀ (rest : List String) (b : String),
      rest.foldl (pickBetter cs) b = b ∨ rest.foldl (pickBetter cs) b ∈ rest
  | [], b => .inl rfl
  | c :: rest, b => by
    rw [List.foldl_cons]
    rcases foldl_pickBetter_mem cs rest (pickBetter cs b c) with h | h
    · rw [h]
      rcases pickBetter_eq_or cs b c with h' | h'
      · exact .inl h'
      · refine .inr ?_
        rw [h']
        exact List.mem_cons_self c rest
    · exact .inr (List.mem_cons_of_mem c h)

/-- The mode computation on a non-empty list returns a member that is
at least as frequent as every member, and not lexicographically after
any equally frequent member. -/
theorem modeFirst_is_mode (hd : String) (tl : List String) :
    modeFirst (hd :: tl) ∈ hd :: tl ∧
    (∀ c ∈ hd :: tl, cnt (hd :: tl) c ≤ cnt (hd :: tl) (modeFirst (hd :: tl))) ∧
    (∀ c ∈ hd :: tl, cnt (hd :: tl) c = cnt (hd :: tl) (modeFirst (hd :: tl)) →
      strLtb c (modeFirst (hd :: tl)) = false) := by
  have hmode : modeFirst (hd :: tl) = tl.foldl (pickBetter (hd :: tl)) hd := rfl
  have hAll : ∀ c ∈ hd :: tl, asGood (hd :: tl) (modeFirst (hd :: tl)) c := by
    intro c hc
    rcases List.mem_cons.mp hc with h | h
    · rw [hmode, h]
      exact foldl_pickBetter_asGood_init (hd :: tl) tl hd
    · rw [hmode]
      exact foldl_pickBetter_asGood_mem (hd :: tl) tl hd c h
  refine ⟨?_, ?_, ?_⟩
  · rw [hmode]
    rcases foldl_pickBetter_mem (hd :: tl) tl hd with h | h
    · rw [h]
      exact List.mem_cons_self hd tl
    · exact List.mem_cons_of_mem hd h
  · intro c hc
    rcases hAll c hc with h | ⟨h, _⟩
    · exact le_of_lt h
    · exact le_of_eq h.symm
  · intro c hc heq
    rcases hAll c hc with h | ⟨_, hs⟩
    · exact absurd heq (ne_of_lt h)
    · exact hs

/-! Helper lemmas for the aggregation statistics. -/

theorem floatOrZero_of_none {r : RawVal} (h : coerceFloat r = none) :
    floatOrZero r = 0 := by
  unfold floatOrZero
  cases ht : r.truthy
  · simp [coerceFloat]
  · simp [h]

theorem le_foldl_max : ∀ (l : List ℚ) (q : ℚ),
    q ≤ l.foldl max q ∧ ∀ y ∈ l, y ≤ l.foldl max q
  | [], q => ⟨le_refl q, by intro y hy; cases hy⟩
  | a :: l, q => by
    have ih := le_foldl_max l (max q a)
    rw [List.foldl_cons]
    refine ⟨le_trans (le_max_left q a) ih.1, ?_⟩
    intro y hy
    rcases List.mem_cons.mp hy with rfl | hy
    · exact le_trans (le_max_right q y) ih.1
    · exact ih.2 y hy

theorem foldl_max_mem : ∀ (l : List ℚ) (q : ℚ),
    l.foldl max q = q ∨ l.foldl max q ∈ l
  | [], _ => .inl rfl
  | a :: l, q => by
    rw [List.foldl_cons]
    rcases foldl_max_mem l (max q a) with h | h
    · rw [h]
      rcases max_choice q a with h' | h'
      · exact .inl h'
      · refine .inr ?_
        rw [h']
        exact List.mem_cons_self a l
    · exact .inr (List.mem_cons_of_mem a h)

theorem foldl_min_le : ∀ (l : List ℚ) (q : ℚ),
    l.foldl min q ≤ q ∧ ∀ y ∈ l, l.foldl min q ≤ y
  | [], q => ⟨le_refl q, by intro y hy; cases hy⟩
  | a :: l, q => by
    have ih := foldl_min_le l (min q a)
    rw [List.foldl_cons]
    refine ⟨le_trans ih.1 (min_le_left q a), ?_⟩
    intro y hy
    rcases List.mem_cons.mp hy with rfl | hy
    · exact le_trans ih.1 (min_le_right q y)
    · exact ih.2 y hy

theorem foldl_min_mem : ∀ (l : List ℚ) (q : ℚ),
    l.foldl min q = q ∨ l.foldl min q ∈ l
  | [], _ => .inl rfl
  | a :: l, q => by
    rw [List.foldl_cons]
    rcases foldl_min_mem l (min q a) with h | h
    · rw [h]
      rcases min_choice q a with h' | h'
      · exact .inl h'
      · refine .inr ?_
        rw [h']
        exact List.mem_cons_self a l
    · exact .inr (List.mem_cons_of_mem a h)

/-! The claims. -/

/-- C1, counterexample: a record whose price is the non-numeric string
`"N/A"` is NOT dropped by the normalization loop of
`ebay_find_completed_items` — the pipeline output contains a normalized
point for it, with the default price 0.0. The claim predicts an empty
output here. -/
theorem c1_counterexample :
    ebay_find_completed_items [naPriceItem] false =
      [⟨"", "", 0, 0, 0, "GBP", ""⟩] := by decide

/-- C1 (amended): a raw record whose price is missing or non-numeric is
kept, not dropped: the normalization loop of `ebay_find_completed_items`
produces a point for it whose price defaults to 0.0. -/
theorem c1_bad_price_kept_with_zero (it : RawItem) (b : Bool)
    (h : badPrice it = true) :
    (normalizeItem it b).price = 0 ∧
    ∀ items : List RawItem, it ∈ items →
      normalizeItem it b ∈ items.map (fun x => normalizeItem x b) := by
  refine ⟨?_, fun items hm => List.mem_map_of_mem _ hm⟩
  show priceOf it = 0
  unfold priceOf
  unfold badPrice at h
  rw [Bool.or_eq_true] at h
  rcases h with h | h
  · exact floatOrZero_of_none (Option.isNone_iff_eq_none.mp h)
  · rw [Bool.and_eq_true] at h
    rw [Option.isNone_iff_eq_none.mp h.1, Option.isNone_iff_eq_none.mp h.2]
    rfl

/-- C1, witness: the amended theorem applied to the `"N/A"`-priced
record. -/
theorem c1_witness :
    badPrice naPriceItem = true ∧
    ((normalizeItem naPriceItem true).price = 0 ∧
     ∀ items : List RawItem, naPriceItem ∈ items →
       normalizeItem naPriceItem true ∈ items.map (fun x => normalizeItem x true)) :=
  ⟨by decide, c1_bad_price_kept_with_zero naPriceItem true (by decide)⟩

/-- C2, counterexample: with one USD record followed by one GBP record
the currency counts tie, the first-encountered currency is "USD", yet
`ebay_find_completed_items` keeps only the GBP item — pandas
`mode().iloc[0]` breaks the tie by sorted order, not input order, so
the claim's tie-break is wrong. -/
theorem c2_counterexample :
    currenciesOf [usdTieItem, gbpTieItem] false = ["USD", "GBP"] ∧
    cnt (currenciesOf [usdTieItem, gbpTieItem] false) "USD" =
      cnt (currenciesOf [usdTieItem, gbpTieItem] false) "GBP" ∧
    ebay_find_completed_items [usdTieItem, gbpTieItem] false =
      [⟨"", "", 7, 0, 7, "GBP", ""⟩] := by decide

/-- C2 (amended): on every non-empty input the dominant currency used
by the filter of `ebay_find_completed_items` is a currency of maximal
count among the normalized items, and on ties it is the
lexicographically smallest such currency (not the first-encountered
one), matching pandas `mode().iloc[0]`. -/
theorem c2_dominant_currency (i : RawItem) (is : List RawItem) (b : Bool) :
    modeFirst (currenciesOf (i :: is) b) ∈ currenciesOf (i :: is) b ∧
    (∀ c ∈ currenciesOf (i :: is) b,
      cnt (currenciesOf (i :: is) b) c ≤
        cnt (currenciesOf (i :: is) b) (modeFirst (currenciesOf (i :: is) b))) ∧
    (∀ c ∈ currenciesOf (i :: is) b,
      cnt (currenciesOf (i :: is) b) c =
          cnt (currenciesOf (i :: is) b) (modeFirst (currenciesOf (i :: is) b)) →
        strLtb c (modeFirst (currenciesOf (i :: is) b)) = false) ∧
    ebay_find_completed_items (i :: is) b =
      ((i :: is).map (fun it => normalizeItem it b)).filter
        (fun x => decide (x.currency = modeFirst (currenciesOf (i :: is) b))) := by
  have hcons : currenciesOf (i :: is) b =
      (normalizeItem i b).currency :: currenciesOf is b := rfl
  obtain ⟨h1, h2, h3⟩ :=
    modeFirst_is_mode (normalizeItem i b).currency (currenciesOf is b)
  rw [hcons]
  exact ⟨h1, h2, h3, rfl⟩

/-- C3: on the spec scenario records (10 GBP, 12 GBP, 999 USD) the
pipeline keeps exactly the two GBP points and the summary is computed
over them only: currency "GBP", count 2, high 12, low 10, mean 11. -/
theorem c3_mixed_currency_scenario :
    ebay_find_completed_items [gbp10Item, gbp12Item, usd999Item] false =
      [⟨"", "", 10, 0, 10, "GBP", ""⟩, ⟨"", "", 12, 0, 12, "GBP", ""⟩] ∧
    summarize_prices (ebay_find_completed_items [gbp10Item, gbp12Item, usd999Item] false) =
      some ⟨"GBP", 2, 12, 10, 11,
        [⟨"", "", 10, 0, 10, "GBP", ""⟩, ⟨"", "", 12, 0, 12, "GBP", ""⟩]⟩ := by
  have h1 : ebay_find_completed_items [gbp10Item, gbp12Item, usd999Item] false =
      [⟨"", "", 10, 0, 10, "GBP", ""⟩, ⟨"", "", 12, 0, 12, "GBP", ""⟩] := by decide
  refine ⟨h1, ?_⟩
  rw [h1]
  simp [summarize_prices, listSum, sort_values_desc, insertDescBy, strLtb, charListLtb]
  norm_num [max_def, min_def]

/-- C4: the normalization-and-filter stage never fabricates points: its
output has at most as many items as the input has records. -/
theorem c4_never_fabricates (items : List RawItem) (b : Bool) :
    (ebay_find_completed_items items b).length ≤ items.length := by
  unfold ebay_find_completed_items
  split
  · rw [List.length_map]
  · exact le_trans (List.length_filter_le _ _) (le_of_eq (List.length_map _ _))

/-- C5: `summarize_prices` on an empty item list returns `None` (and,
being a total function of its input, raises no exception). -/
theorem c5_empty_input_returns_none : summarize_prices ([] : List NormItem) = none := rfl

/-- C6, counterexample: on a four-row single-currency list with total
prices 1, 2, 3, 10 the summary is
`{currency "GBP", count 4, high 10, low 1, avg 4}` plus the sorted
rows; the spec median of the series is 5/2, which equals none of the
summary's numeric components — `summarize_prices` computes no median. -/
theorem c6_counterexample :
    summarize_prices fourRowItems = some ⟨"GBP", 4, 10, 1, 4, fourRowItems⟩ ∧
    specMedian (fourRowItems.map (fun y => y.total_price)) = 5/2 ∧
    (10 : ℚ) ≠ 5/2 ∧ (1 : ℚ) ≠ 5/2 ∧ (4 : ℚ) ≠ 5/2 ∧ ((4 : Nat) : ℚ) ≠ 5/2 := by
  refine ⟨?_, ?_, by norm_num, by norm_num, by norm_num, by norm_num⟩
  · simp [fourRowItems, summarize_prices, listSum, sort_values_desc, insertDescBy,
      strLtb, charListLtb]
    norm_num [max_def, min_def]
  · simp [fourRowItems, specMedian, ratSort, insertRat]
    norm_num

/-- C6 (amended): on every non-empty item list the summary of
`summarize_prices` contains the currency (of the first row), the count,
the maximum (`high`), the minimum (`low`) and the mean (`avg`) of the
total prices; no median is computed. -/
theorem c6_summary_fields (x : NormItem) (xs : List NormItem) :
    ∃ s : Summary, summarize_prices (x :: xs) = some s ∧
      s.currency = x.currency ∧
      s.count = (x :: xs).length ∧
      (∀ y ∈ x :: xs, y.total_price ≤ s.high) ∧
      s.high ∈ (x :: xs).map (fun y => y.total_price) ∧
      (∀ y ∈ x :: xs, s.low ≤ y.total_price) ∧
      s.low ∈ (x :: xs).map (fun y => y.total_price) ∧
      s.avg = listSum ((x :: xs).map (fun y => y.total_price)) / ((x :: xs).length : ℚ) := by
  refine ⟨_, rfl, rfl, rfl, ?_, ?_, ?_, ?_, rfl⟩
  · intro y hy
    rcases List.mem_cons.mp hy with h | h
    · rw [h]
      exact (le_foldl_max (xs.map (fun y => y.total_price)) x.total_price).1
    · exact (le_foldl_max (xs.map (fun y => y.total_price)) x.total_price).2 _
        (List.mem_map_of_mem _ h)
  · rcases foldl_max_mem (xs.map (fun y => y.total_price)) x.total_price with h | h
    · rw [List.map_cons, h]
      exact List.mem_cons_self _ _
    · rw [List.map_cons]
      exact List.mem_cons_of_mem _ h
  · intro y hy
    rcases List.mem_cons.mp hy with h | h
    · rw [h]
      exact (foldl_min_le (xs.map (fun y => y.total_price)) x.total_price).1
    · exact (foldl_min_le (xs.map (fun y => y.total_price)) x.total_price).2 _
        (List.mem_map_of_mem _ h)
  · rcases foldl_min_mem (xs.map (fun y => y.total_price)) x.total_price with h | h
    · rw [List.map_cons, h]
      exact List.mem_cons_self _ _
    · rw [List.map_cons]
      exact List.mem_cons_of_mem _ h

/-- C7: a raw record with no currency field (neither `@currencyId` nor
`currencyId`) is normalized with the fallback currency "GBP", and the
record is not dropped by the normalization loop. -/
theorem c7_missing_currency_defaults_gbp (it : RawItem) (b : Bool)
    (h1 : (priceObjOf it).atCurrencyId = none)
    (h2 : (priceObjOf it).currencyId = none) :
    (normalizeItem it b).currency = "GBP" ∧
    ∀ items : List RawItem, it ∈ items →
      normalizeItem it b ∈ items.map (fun x => normalizeItem x b) := by
  refine ⟨?_, fun items hm => List.mem_map_of_mem _ hm⟩
  show currencyOf it = "GBP"
  unfold currencyOf
  rw [h1, h2]
  rfl

/-- C7, witness: the theorem applied to a record priced 4 with no
currency fields. -/
theorem c7_witness :
    (priceObjOf noCurrencyItem).atCurrencyId = none ∧
    (priceObjOf noCurrencyItem).currencyId = none ∧
    ((normalizeItem noCurrencyItem true).currency = "GBP" ∧
     ∀ items : List RawItem, noCurrencyItem ∈ items →
       normalizeItem noCurrencyItem true ∈ items.map (fun x => normalizeItem x true)) :=
  ⟨rfl, rfl, c7_missing_currency_defaults_gbp noCurrencyItem true rfl rfl⟩

/-- C8: the normalization-and-filter stage and `summarize_prices` are
deterministic — running either twice on the same input yields the same
output (they are pure functions of their argument). -/
theorem c8_deterministic (items : List RawItem) (b : Bool) (l : List NormItem) :
    ebay_find_completed_items items b = ebay_find_completed_items items b ∧
    summarize_prices l = summarize_prices l :=
  ⟨rfl, rfl⟩

/-- C9: the Trend Estimator on a series with exactly one point produces
no trend line — the result is `none`, not a degenerate zero-slope
line. -/
theorem c9_single_point_no_trend (p : ℚ × ℚ) : trend_estimate [p] = none := rfl

/-- C10: for every normalized item, `total_price` is `price + shipping`
when `include_shipping` is true and `price` alone when it is false; a
missing or unparsable shipping cost yields `shipping = 0`; and whenever
the shipping cost is non-negative, `total_price` is at least `price`. -/
theorem c10_total_price (it : RawItem) (b : Bool) :
    (normalizeItem it b).total_price =
      (if b then (normalizeItem it b).price + (normalizeItem it b).shipping
       else (normalizeItem it b).price) ∧
    (badShipping it = true → (normalizeItem it b).shipping = 0) ∧
    (0 ≤ (normalizeItem it b).shipping →
      (normalizeItem it b).price ≤ (normalizeItem it b).total_price) := by
  refine ⟨rfl, ?_, ?_⟩
  · intro h
    show shipCostOf it = 0
    unfold shipCostOf
    unfold badShipping at h
    rcases hm : (firstOr it.shippingInfo (⟨none⟩ : ShippingInfo)).shippingServiceCost
      with _ | l
    · rfl
    · rcases l with _ | ⟨o, os⟩
      · rfl
      · rw [hm] at h
        exact floatOrZero_of_none (Option.isNone_iff_eq_none.mp h)
  · intro h
    cases b
    · show priceOf it ≤ priceOf it
      exact le_refl _
    · show priceOf it ≤ priceOf it + shipCostOf it
      exact le_add_of_nonneg_right h

/-- C10, witness: the theorem applied to a record with no shipping
information at all. -/
theorem c10_witness :
    badShipping noShippingItem = true ∧
    (normalizeItem noShippingItem true).shipping = 0 ∧
    0 ≤ (normalizeItem noShippingItem true).shipping ∧
    (normalizeItem noShippingItem true).price ≤
      (normalizeItem noShippingItem true).total_price :=
  ⟨by decide, (c10_total_price noShippingItem true).2.1 (by decide), by decide,
   (c10_total_price noShippingItem true).2.2 (by decide)⟩
